import Mathlib

/-!
Verification of the ambula Proof-of-Interaction blockchain core.

The Go sources are shallowly embedded: pure functions become Lean
functions, stateful methods become explicit state passing (a method that
mutates its receiver returns the result paired with the new state), and
fallible functions return `Except String`.

External primitives (the secp256k1/ECDSA signature scheme with public-key
recovery, the BLAKE2b-256 hash and the `math/rand` deterministic PRNG) are
not part of the repository and are modelled symbolically, following the
guarantees stated in the specification (section 4.1): hashing is
collision-free, signing is deterministic in (key, digest), and recovering
a public key from a signature over a different digest yields a key that
differs from every honestly derived key.  Byte strings are represented by
the free term algebra `SymVal`, so distinct constructions denote distinct
byte strings; this matches the fixed-width layouts used by the code.
-/

deriving instance DecidableEq for Except

namespace Ambula

/-- Symbolic byte strings: opaque external bytes, concatenation, BLAKE2b
digests, ECDSA signatures (identified by signing key and signed digest,
per the deterministic-signature idealization) and marshalled public keys.
`badkey s h` is the key recovered from signature bytes `s` over a digest
`h` that `s` was not produced over. -/
inductive SymVal where
  | raw : ℕ → SymVal
  | cat : SymVal → SymVal → SymVal
  | blake : SymVal → SymVal
  | sig : ℕ → SymVal → SymVal
  | pub : ℕ → SymVal
  | badkey : SymVal → SymVal → SymVal
deriving DecidableEq, Repr

/-- The all-zero 32-byte hash, the sentinel for an unset or invalidated
cache (`crypto.Hash{}`). -/
def hZero : SymVal := SymVal.raw 0

/-- Modelled from the spec: `RecoverPublicKey(signature, H)` of the
signature abstraction (spec section 4.1; the recovery-capable keypair
implementation is referenced by the PoI code but absent from the tree).
Recovery over the digest a signature was produced over yields the
signer's key; over any other digest it yields a key that is not an
honestly marshalled key; malformed signature bytes yield an error. -/
def recover (sg : SymVal) (digest : SymVal) : Option SymVal :=
  match sg with
  | SymVal.sig k h => if digest = h then some (SymVal.pub k) else some (SymVal.badkey (SymVal.sig k h) digest)
  | _ => none

/-- Index extracted from a hash value: the model's stand-in for reading
the first 8 bytes of the digest as a big-endian integer (any fixed
function of the digest is a faithful abstraction, since the digest itself
is symbolic). -/
def symIdx : SymVal → ℕ
  | SymVal.raw n => n
  | SymVal.cat a b => symIdx a + symIdx b
  | SymVal.blake a => symIdx a + 1
  | SymVal.sig k h => k + symIdx h
  | SymVal.pub k => k
  | SymVal.badkey a b => symIdx a + symIdx b

/-- `hashToIndex` from poi.go: reduce a hash to an index in `[0, n)`,
returning 0 when `n = 0`. -/
def hashToIndex (h : SymVal) (n : ℕ) : ℕ :=
  if n = 0 then 0 else symIdx h % n

/-- PoI difficulty parameters (`Difficulty` in poi.go); `Min` and `Max`
are `uint32` in the source, represented as naturals below `2^32`. -/
structure Difficulty where
  Min : ℕ
  Max : ℕ
deriving DecidableEq, Repr

/-- `2^32`, the modulus of Go's `uint32` arithmetic. -/
def two32 : ℕ := 4294967296

/-- `Difficulty.Mean` from poi.go: `(Min + Max) / 2` in `uint32`
arithmetic (the addition may wrap). -/
def Difficulty.Mean (d : Difficulty) : ℕ :=
  ((d.Min + d.Max) % two32) / 2

/-- `Difficulty.Validate` from poi.go: error when `Min = 0`, `Max = 0`
or `Min > Max`. -/
def Difficulty.Validate (d : Difficulty) : Except String Unit :=
  if d.Min = 0 ∨ d.Max = 0 then Except.error "invalid difficulty parameters"
  else if d.Min > d.Max then Except.error "invalid difficulty parameters"
  else Except.ok ()

/-- Parallel swap `l[a], l[b] = l[b], l[a]` on a list.  Out-of-range
indices leave the list unchanged (the PRNG bound hypothesis keeps every
swap of the shuffle in range, matching Go, where an out-of-range index
would be a run-time fault). -/
def listSwap {α : Type} (l : List α) (a b : ℕ) : List α :=
  match l.get? a, l.get? b with
  | some x, some y => (l.set a y).set b x
  | _, _ => l

/-- The Fisher-Yates loop of `createServices`: for `i` from `len-1` down
to `1`, draw `j := rng.Intn(i+1)` and swap positions `i` and `j`.  The
PRNG is passed as a step function on an abstract state `σ` (Go's
`math/rand` source is external to the repository; `step s n` returns the
next `Intn n` draw and the advanced state). -/
def fyLoop {σ α : Type} (step : σ → ℕ → ℕ × σ) : ℕ → σ → List α → List α
  | 0, _, l => l
  | i + 1, s, l =>
    let d := step s (i + 2)
    fyLoop step i d.2 (listSwap l (i + 1) d.1)

/-- `createServices` from poi.go: pseudo-random service subset of size
`min(20, n/2)`.  `seedInit` models deriving the PRNG state from the seed
signature (`rand.New(rand.NewSource(int64(blake2b(seed))))`). -/
def createServices {σ : Type} (step : σ → ℕ → ℕ × σ) (seedInit : SymVal → σ)
    (nodes : List SymVal) (seed : SymVal) : List SymVal :=
  if nodes.length = 0 then []
  else
    let subsetSize0 := nodes.length / 2
    let subsetSize1 := if subsetSize0 > 20 then 20 else subsetSize0
    let subsetSize := if subsetSize1 > nodes.length then nodes.length else subsetSize1
    let shuffled := fyLoop step (nodes.length - 1) (seedInit seed) nodes
    shuffled.take subsetSize

/-- `tourLength` from poi.go: uniform tour length in `[Min, Max]` from a
PRNG freshly seeded by the seed signature; fails when the difficulty is
invalid. -/
def tourLength {σ : Type} (step : σ → ℕ → ℕ × σ) (seedInit : SymVal → σ)
    (difficulty : Difficulty) (seed : SymVal) : Except String ℕ :=
  match difficulty.Validate with
  | Except.error e => Except.error e
  | Except.ok () =>
    let rangeSize := difficulty.Max - difficulty.Min + 1
    Except.ok (difficulty.Min + (step (seedInit seed) rangeSize).1)

theorem listSwap_length {α : Type} (l : List α) (a b : ℕ) :
    (listSwap l a b).length = l.length := by
  unfold listSwap
  cases hx : l.get? a <;> cases hy : l.get? b <;> simp

theorem fyLoop_length {σ α : Type} (step : σ → ℕ → ℕ × σ) :
    ∀ (i : ℕ) (s : σ) (l : List α), (fyLoop step i s l).length = l.length := by
  intro i
  induction i with
  | zero => intro s l; rfl
  | succ n ih =>
    intro s l
    unfold fyLoop
    rw [ih, listSwap_length]

theorem mem_listSwap {α : Type} {l : List α} {a b : ℕ} {x : α}
    (hx : x ∈ listSwap l a b) : x ∈ l := by
  unfold listSwap at hx
  cases hp : l.get? a with
  | none => rw [hp] at hx; exact hx
  | some p =>
    cases hq : l.get? b with
    | none => rw [hp, hq] at hx; exact hx
    | some q =>
      rw [hp, hq] at hx
      rcases List.mem_or_eq_of_mem_set hx with hx1 | hx1
      · rcases List.mem_or_eq_of_mem_set hx1 with hx2 | hx2
        · exact hx2
        · exact hx2 ▸ List.get?_mem hq
      · exact hx1 ▸ List.get?_mem hp

theorem mem_fyLoop {σ α : Type} (step : σ → ℕ → ℕ × σ) :
    ∀ (i : ℕ) (s : σ) (l : List α) (x : α), x ∈ fyLoop step i s l → x ∈ l := by
  intro i
  induction i with
  | zero => intro s l x hx; exact hx
  | succ n ih =>
    intro s l x hx
    unfold fyLoop at hx
    exact mem_listSwap (ih _ _ x hx)

/-- Length of the service subset produced by `createServices`. -/
theorem createServices_length {σ : Type} (step : σ → ℕ → ℕ × σ) (seedInit : SymVal → σ)
    (nodes : List SymVal) (seed : SymVal) :
    (createServices step seedInit nodes seed).length =
      min 20 (min (nodes.length / 2) nodes.length) := by
  unfold createServices
  by_cases h0 : nodes.length = 0
  · simp [h0]
  · simp only [h0, if_false]
    rw [List.length_take, fyLoop_length]
    have hhalf : nodes.length / 2 ≤ nodes.length := Nat.div_le_self _ _
    by_cases h20 : nodes.length / 2 > 20
    · rw [if_pos h20, if_neg (by omega)]
      omega
    · rw [if_neg h20, if_neg (by omega)]
      omega

/-- Every element of the service subset comes from the node list. -/
theorem createServices_mem {σ : Type} (step : σ → ℕ → ℕ × σ) (seedInit : SymVal → σ)
    (nodes : List SymVal) (seed : SymVal) (x : SymVal)
    (hx : x ∈ createServices step seedInit nodes seed) : x ∈ nodes := by
  unfold createServices at hx
  by_cases h0 : nodes.length = 0
  · simp [h0] at hx
  · simp only [h0, if_false] at hx
    exact mem_fyLoop step _ _ _ x (List.take_subset _ _ hx)

/-- C2.  `createServices(N, seed)` returns exactly
`min(20, |N|/2, |N|)` keys, each drawn from `N`, and the output is a
deterministic function of the node list and the seed (the PRNG state is
reconstructed from the seed on every call). -/
theorem createServices_size_mem_det {σ : Type} (step : σ → ℕ → ℕ × σ)
    (seedInit : SymVal → σ) (nodes : List SymVal) (seed : SymVal) :
    (createServices step seedInit nodes seed).length =
        min 20 (min (nodes.length / 2) nodes.length)
      ∧ (∀ x ∈ createServices step seedInit nodes seed, x ∈ nodes)
      ∧ (∀ nodes2 seed2, nodes2 = nodes → seed2 = seed →
          createServices step seedInit nodes2 seed2 =
            createServices step seedInit nodes seed) := by
  refine ⟨createServices_length step seedInit nodes seed,
    fun x hx => createServices_mem step seedInit nodes seed x hx, ?_⟩
  intro nodes2 seed2 h1 h2
  rw [h1, h2]

/-- C3.  `tourLength(d, seed)` errors exactly when the difficulty is
invalid (`Min = 0`, `Max = 0` or `Min > Max`); otherwise the returned
length lies in `[Min, Max]` (given that the external PRNG's `Intn n`
draw is below `n`), and the result is a deterministic function of the
difficulty and the seed. -/
theorem tourLength_spec {σ : Type} (step : σ → ℕ → ℕ × σ) (seedInit : SymVal → σ)
    (difficulty : Difficulty) (seed : SymVal)
    (hstep : ∀ (s : σ) (n : ℕ), 0 < n → (step s n).1 < n) :
    ((∃ e, tourLength step seedInit difficulty seed = Except.error e) ↔
        (difficulty.Min = 0 ∨ difficulty.Max = 0 ∨ difficulty.Min > difficulty.Max))
      ∧ (∀ len, tourLength step seedInit difficulty seed = Except.ok len →
          difficulty.Min ≤ len ∧ len ≤ difficulty.Max)
      ∧ (∀ d2 s2, d2 = difficulty → s2 = seed →
          tourLength step seedInit d2 s2 = tourLength step seedInit difficulty seed) := by
  unfold tourLength Difficulty.Validate
  refine ⟨?_, ?_, ?_⟩
  · by_cases h1 : difficulty.Min = 0 ∨ difficulty.Max = 0
    · rw [if_pos h1]
      exact ⟨fun _ => by tauto, fun _ => ⟨_, rfl⟩⟩
    · rw [if_neg h1]
      by_cases h2 : difficulty.Min > difficulty.Max
      · rw [if_pos h2]
        exact ⟨fun _ => by tauto, fun _ => ⟨_, rfl⟩⟩
      · rw [if_neg h2]
        constructor
        · rintro ⟨e, he⟩; exact absurd he (by simp)
        · intro hinv
          exact absurd hinv (by tauto)
  · intro len hlen
    by_cases h1 : difficulty.Min = 0 ∨ difficulty.Max = 0
    · simp [h1] at hlen
    · by_cases h2 : difficulty.Min > difficulty.Max
      · simp [h1, h2] at hlen
      · simp only [h1, h2, if_false] at hlen
        have hdraw := hstep (seedInit seed) (difficulty.Max - difficulty.Min + 1) (by omega)
        have : difficulty.Min + (step (seedInit seed) (difficulty.Max - difficulty.Min + 1)).1 = len := by
          exact Except.ok.inj hlen
        omega
  · intro d2 s2 h1 h2
    rw [h1, h2]

/-- Witness for C3 at a concrete difficulty and PRNG. -/
theorem tourLength_spec_witness :
    (∀ (s n : ℕ), 0 < n → ((fun (st : ℕ) (n : ℕ) => (st % n, st + 1)) s n).1 < n)
      ∧ (∀ len, tourLength (fun (st : ℕ) (n : ℕ) => (st % n, st + 1)) (fun _ => 7)
          ⟨10, 100⟩ (SymVal.raw 1) = Except.ok len → 10 ≤ len ∧ len ≤ 100) :=
  ⟨fun s n hn => Nat.mod_lt _ hn,
    (tourLength_spec (fun (st : ℕ) (n : ℕ) => (st % n, st + 1)) (fun _ => 7)
      ⟨10, 100⟩ (SymVal.raw 1) (fun s n hn => Nat.mod_lt _ hn)).2.1⟩

/-- The `uint32` part of `AdjustDifficulty` from poi.go, after the new
mean has been computed: clamp the mean to at least 1, recompute the
range, and derive `newMin`/`newMax` in wrapping `uint32` arithmetic
(`x - y` is `(x + 2^32 - y) % 2^32`, `x + y` is `(x + y) % 2^32`). -/
def adjustCore (currentDifficulty : Difficulty) (newMean0 : ℕ) : Difficulty :=
  let newMean := if newMean0 < 1 then 1 else newMean0
  let rangeSize := (currentDifficulty.Max + two32 - currentDifficulty.Min) % two32
  let newMin := (newMean + two32 - rangeSize / 2) % two32
  let newMax := (newMean + rangeSize / 2) % two32
  if newMin < 1 then ⟨1, (1 + rangeSize) % two32⟩ else ⟨newMin, newMax⟩

/-- `AdjustDifficulty` from poi.go.  The `float64` quotient
`float64(Mean) / (actual / target)` is modelled by exact rational
arithmetic and the `uint32(...)` conversion by the floor (Go truncates
non-negative in-range floats toward zero). -/
def AdjustDifficulty (currentDifficulty : Difficulty)
    (targetBlockTime actualBlockTime : ℚ) : Difficulty :=
  if actualBlockTime ≤ 0 ∨ targetBlockTime ≤ 0 then currentDifficulty
  else adjustCore currentDifficulty
    ⌊(currentDifficulty.Mean : ℚ) / (actualBlockTime / targetBlockTime)⌋₊

theorem adjustCore_ge (d : Difficulty) (n0 : ℕ)
    (h1 : 1 ≤ d.Min) (h2 : d.Min ≤ d.Max) (h3 : d.Max < 2147483648)
    (hb : n0 < 2147483648) (hge : d.Mean ≤ n0) :
    d.Mean ≤ (adjustCore d n0).Mean
      ∧ 1 ≤ (adjustCore d n0).Min ∧ (adjustCore d n0).Min ≤ (adjustCore d n0).Max := by
  simp only [adjustCore, Difficulty.Mean, two32] at *
  split_ifs <;> simp_all <;> omega

theorem adjustCore_le (d : Difficulty) (n0 : ℕ)
    (h1 : 1 ≤ d.Min) (h2 : d.Min ≤ d.Max) (h3 : d.Max < 2147483648)
    (hb : n0 < 2147483648) (hle : max 1 n0 ≤ d.Mean)
    (hnu : (d.Max - d.Min) / 2 ≤ max 1 n0) :
    (adjustCore d n0).Mean ≤ d.Mean
      ∧ 1 ≤ (adjustCore d n0).Min ∧ (adjustCore d n0).Min ≤ (adjustCore d n0).Max := by
  simp only [adjustCore, Difficulty.Mean, two32] at *
  split_ifs <;> simp_all <;> omega

theorem adjustCore_width (d : Difficulty) (n0 : ℕ)
    (h1 : 1 ≤ d.Min) (h2 : d.Min ≤ d.Max) (h3 : d.Max < 2147483648)
    (hb : n0 < 2147483648) (heven : (d.Max - d.Min) % 2 = 0)
    (hnu : (d.Max - d.Min) / 2 ≤ max 1 n0) :
    (adjustCore d n0).Min = max 1 (max 1 n0 - (d.Max - d.Min) / 2)
      ∧ (adjustCore d n0).Max = (adjustCore d n0).Min + (d.Max - d.Min)
      ∧ (adjustCore d n0).Max - (adjustCore d n0).Min = d.Max - d.Min := by
  simp only [adjustCore, two32] at *
  split_ifs <;> simp_all <;> omega

/-- C5 (amended).  For a valid difficulty with `Max < 2^31` and positive
block times, with the computed new mean below `2^31` (so that neither
the `newMin` subtraction nor the `newMax` addition can wrap `uint32`;
for a new mean in `[2^31, 2^32)` the `newMax` addition itself can wrap
and produce an invalid difficulty, see the counterexample): if blocks
are too fast (`actual < target`) the mean does not decrease and the
result is valid; if blocks are too slow (`actual > target`) and the
clamped new mean is at least `(Max - Min) / 2` (so the `uint32`
subtraction producing `newMin` does not wrap), the mean does not
increase and the result is valid. -/
theorem AdjustDifficulty_monotone_valid (d : Difficulty) (t a : ℚ)
    (h1 : 1 ≤ d.Min) (h2 : d.Min ≤ d.Max) (h3 : d.Max < 2147483648)
    (ht : 0 < t) (ha : 0 < a)
    (hb : ⌊(d.Mean : ℚ) / (a / t)⌋₊ < 2147483648) :
    (a < t → d.Mean ≤ (AdjustDifficulty d t a).Mean
        ∧ 1 ≤ (AdjustDifficulty d t a).Min
        ∧ (AdjustDifficulty d t a).Min ≤ (AdjustDifficulty d t a).Max)
      ∧ (t < a → (d.Max - d.Min) / 2 ≤ max 1 ⌊(d.Mean : ℚ) / (a / t)⌋₊ →
          (AdjustDifficulty d t a).Mean ≤ d.Mean
        ∧ 1 ≤ (AdjustDifficulty d t a).Min
        ∧ (AdjustDifficulty d t a).Min ≤ (AdjustDifficulty d t a).Max) := by
  have hpos : ¬(a ≤ 0 ∨ t ≤ 0) := by push_neg; exact ⟨ha, ht⟩
  unfold AdjustDifficulty
  rw [if_neg hpos]
  have hM1 : 1 ≤ d.Mean := by
    simp only [Difficulty.Mean, two32]; omega
  constructor
  · intro hat
    have hr1 : a / t ≤ 1 := le_of_lt ((div_lt_one ht).mpr hat)
    have hratio : 0 < a / t := div_pos ha ht
    have hq : (d.Mean : ℚ) ≤ (d.Mean : ℚ) / (a / t) := by
      rw [le_div_iff₀ hratio]
      exact mul_le_of_le_one_right (Nat.cast_nonneg _) hr1
    exact adjustCore_ge d _ h1 h2 h3 hb (Nat.le_floor hq)
  · intro hta hnu
    have hq : (d.Mean : ℚ) / (a / t) < (d.Mean : ℚ) := by
      have hr1 : 1 < a / t := (one_lt_div ht).mpr hta
      have hM0 : (0 : ℚ) < (d.Mean : ℚ) := by exact_mod_cast hM1
      exact div_lt_self hM0 hr1
    have hlt : ⌊(d.Mean : ℚ) / (a / t)⌋₊ < d.Mean := by
      refine (Nat.floor_lt ?_).mpr hq
      positivity
    exact adjustCore_le d _ h1 h2 h3 hb (by omega) hnu

theorem floor_mean4060_div_half :
    ⌊((⟨40, 60⟩ : Difficulty).Mean : ℚ) / (5 / 10)⌋₊ = 100 := by
  norm_num [Difficulty.Mean, two32]

theorem floor_mean4060_div_63_64 :
    ⌊((⟨40, 60⟩ : Difficulty).Mean : ℚ) / (63 / 64)⌋₊ = 50 := by
  norm_num [Difficulty.Mean, two32]
  rw [Nat.floor_eq_iff (by norm_num)]
  norm_num

theorem floor_mean4060_div_six :
    ⌊((⟨40, 60⟩ : Difficulty).Mean : ℚ) / (60 / 10)⌋₊ = 8 := by
  norm_num [Difficulty.Mean, two32]
  rw [Nat.floor_eq_iff (by norm_num)]
  norm_num

theorem adjust4060_64_63_eval : AdjustDifficulty ⟨40, 60⟩ 64 63 = ⟨40, 60⟩ := by
  unfold AdjustDifficulty
  rw [if_neg (by norm_num), floor_mean4060_div_63_64]
  decide

theorem adjust4060_10_60_eval : AdjustDifficulty ⟨40, 60⟩ 10 60 = ⟨4294967294, 18⟩ := by
  unfold AdjustDifficulty
  rw [if_neg (by norm_num), floor_mean4060_div_six]
  decide

/-- Witness for C5 at difficulty (40, 60), target 10s, actual 5s. -/
theorem AdjustDifficulty_monotone_valid_witness :
    (1 ≤ (40 : ℕ) ∧ (40 : ℕ) ≤ 60 ∧ (60 : ℕ) < 2147483648
        ∧ (0 : ℚ) < 10 ∧ (0 : ℚ) < 5
        ∧ ⌊((⟨40, 60⟩ : Difficulty).Mean : ℚ) / (5 / 10)⌋₊ < 2147483648)
      ∧ ((5 : ℚ) < 10 →
          (⟨40, 60⟩ : Difficulty).Mean ≤ (AdjustDifficulty ⟨40, 60⟩ 10 5).Mean
          ∧ 1 ≤ (AdjustDifficulty ⟨40, 60⟩ 10 5).Min
          ∧ (AdjustDifficulty ⟨40, 60⟩ 10 5).Min ≤ (AdjustDifficulty ⟨40, 60⟩ 10 5).Max) :=
  ⟨by simp only [floor_mean4060_div_half]; norm_num [Difficulty.Mean, two32],
    (AdjustDifficulty_monotone_valid ⟨40, 60⟩ 10 5 (by decide) (by decide) (by decide)
      (by norm_num) (by norm_num)
      (by simp only [floor_mean4060_div_half]; norm_num)).1⟩

theorem floor_mean_big :
    ⌊((⟨1073741819, 1073741829⟩ : Difficulty).Mean : ℚ) / (1073741824 / 4294967294)⌋₊
      = 4294967294 := by
  norm_num [Difficulty.Mean, two32]

theorem adjust_big_eval :
    AdjustDifficulty ⟨1073741819, 1073741829⟩ 4294967294 1073741824 = ⟨4294967289, 3⟩ := by
  unfold AdjustDifficulty
  rw [if_neg (by norm_num), floor_mean_big]
  decide

/-- Counterexample to C5 as stated: at difficulty (40, 60) with target
64s and actual 63s the mean stays 50 (not strictly greater); at target
10s, actual 60s the `uint32` subtraction producing `newMin` wraps,
giving an invalid difficulty with `Min > Max`; and at difficulty
(1073741819, 1073741829), target 4294967294s, actual 1073741824s —
where the computed new mean 4294967294 still fits `uint32` — the
`newMax` addition wraps instead, again giving `Min > Max` even though
`actual < target`. -/
theorem AdjustDifficulty_monotone_counterexample :
    ((63 : ℚ) < 64
        ∧ ¬ (⟨40, 60⟩ : Difficulty).Mean < (AdjustDifficulty ⟨40, 60⟩ 64 63).Mean)
      ∧ ((10 : ℚ) < 60
        ∧ AdjustDifficulty ⟨40, 60⟩ 10 60 = ⟨4294967294, 18⟩
        ∧ ¬ (AdjustDifficulty ⟨40, 60⟩ 10 60).Min ≤ (AdjustDifficulty ⟨40, 60⟩ 10 60).Max)
      ∧ ((1073741824 : ℚ) < 4294967294
        ∧ AdjustDifficulty ⟨1073741819, 1073741829⟩ 4294967294 1073741824 = ⟨4294967289, 3⟩
        ∧ ¬ (AdjustDifficulty ⟨1073741819, 1073741829⟩ 4294967294 1073741824).Min
            ≤ (AdjustDifficulty ⟨1073741819, 1073741829⟩ 4294967294 1073741824).Max) := by
  rw [adjust4060_64_63_eval, adjust4060_10_60_eval, adjust_big_eval]
  refine ⟨⟨by norm_num, by decide⟩, ⟨by norm_num, rfl, by decide⟩, by norm_num, rfl, by decide⟩

/-- C6 (amended).  For a valid difficulty with `Max < 2^31`, positive
block times, a computed new mean below `2^31` (so that neither the
`newMin` subtraction nor the `newMax` addition can wrap `uint32`), an
even width `Max - Min`, and a clamped new mean of at least
`(Max - Min) / 2`: the new difficulty matches the specification formula
`new_min = max(1, new_mean - range/2)`, `new_max = new_min + range`,
and the width is preserved.  (For an odd width the non-clamped branch
shrinks the width by one, and a wrap in either the `newMin` subtraction
or the `newMax` addition destroys it entirely, as the counterexample
shows.) -/
theorem AdjustDifficulty_width (d : Difficulty) (t a : ℚ)
    (h1 : 1 ≤ d.Min) (h2 : d.Min ≤ d.Max) (h3 : d.Max < 2147483648)
    (ht : 0 < t) (ha : 0 < a)
    (hb : ⌊(d.Mean : ℚ) / (a / t)⌋₊ < 2147483648)
    (heven : (d.Max - d.Min) % 2 = 0)
    (hnu : (d.Max - d.Min) / 2 ≤ max 1 ⌊(d.Mean : ℚ) / (a / t)⌋₊) :
    (AdjustDifficulty d t a).Min
        = max 1 (max 1 ⌊(d.Mean : ℚ) / (a / t)⌋₊ - (d.Max - d.Min) / 2)
      ∧ (AdjustDifficulty d t a).Max = (AdjustDifficulty d t a).Min + (d.Max - d.Min)
      ∧ (AdjustDifficulty d t a).Max - (AdjustDifficulty d t a).Min = d.Max - d.Min := by
  have hpos : ¬(a ≤ 0 ∨ t ≤ 0) := by push_neg; exact ⟨ha, ht⟩
  unfold AdjustDifficulty
  rw [if_neg hpos]
  exact adjustCore_width d _ h1 h2 h3 hb heven hnu

/-- Witness for C6 at difficulty (40, 60), target 10s, actual 5s. -/
theorem AdjustDifficulty_width_witness :
    (1 ≤ (40 : ℕ) ∧ (40 : ℕ) ≤ 60 ∧ (60 : ℕ) < 2147483648
        ∧ (0 : ℚ) < 10 ∧ (0 : ℚ) < 5
        ∧ ⌊((⟨40, 60⟩ : Difficulty).Mean : ℚ) / (5 / 10)⌋₊ < 2147483648
        ∧ ((60 : ℕ) - 40) % 2 = 0
        ∧ ((60 : ℕ) - 40) / 2 ≤ max 1 ⌊((⟨40, 60⟩ : Difficulty).Mean : ℚ) / (5 / 10)⌋₊)
      ∧ (AdjustDifficulty ⟨40, 60⟩ 10 5).Max - (AdjustDifficulty ⟨40, 60⟩ 10 5).Min
          = 60 - 40 :=
  ⟨by simp only [floor_mean4060_div_half]; norm_num [Difficulty.Mean, two32],
    (AdjustDifficulty_width ⟨40, 60⟩ 10 5 (by decide) (by decide) (by decide)
      (by norm_num) (by norm_num)
      (by simp only [floor_mean4060_div_half]; norm_num) (by decide)
      (by simp only [floor_mean4060_div_half]; norm_num)).2.2⟩

theorem adjust12_10_10_eval : AdjustDifficulty ⟨1, 2⟩ 10 10 = ⟨1, 1⟩ := by
  unfold AdjustDifficulty
  rw [if_neg (by norm_num)]
  have h : ⌊((⟨1, 2⟩ : Difficulty).Mean : ℚ) / (10 / 10)⌋₊ = 1 := by
    norm_num [Difficulty.Mean, two32]
  rw [h]
  decide

/-- Counterexample to C6 as stated: at difficulty (1, 2) with
target = actual = 10s the width shrinks from 1 to 0; at difficulty
(40, 60) with target 10s, actual 60s the `newMin` subtraction wraps and
the integer width is not preserved; and at difficulty
(1073741819, 1073741829), target 4294967294s, actual 1073741824s — even
width 10, no `newMin` wrap, new mean 4294967294 inside `uint32` — the
`newMax` addition wraps and the width is destroyed as well. -/
theorem AdjustDifficulty_width_counterexample :
    (AdjustDifficulty ⟨1, 2⟩ 10 10 = ⟨1, 1⟩
        ∧ (AdjustDifficulty ⟨1, 2⟩ 10 10).Max - (AdjustDifficulty ⟨1, 2⟩ 10 10).Min ≠ 2 - 1)
      ∧ (((AdjustDifficulty ⟨40, 60⟩ 10 60).Max : ℤ)
          - ((AdjustDifficulty ⟨40, 60⟩ 10 60).Min : ℤ) ≠ 60 - 40)
      ∧ ((1073741829 - 1073741819) % 2 = 0
        ∧ ((AdjustDifficulty ⟨1073741819, 1073741829⟩ 4294967294 1073741824).Max : ℤ)
            - ((AdjustDifficulty ⟨1073741819, 1073741829⟩ 4294967294 1073741824).Min : ℤ)
          ≠ 1073741829 - 1073741819) := by
  rw [adjust12_10_10_eval, adjust4060_10_60_eval, adjust_big_eval]
  exact ⟨⟨rfl, by decide⟩, by decide, by decide, by decide⟩

/-- Outcome of `RandomInt` in random.go; Go panics are a distinct
outcome from returned errors. -/
inductive RandResult where
  | ok : ℤ → RandResult
  | err : String → RandResult
  | panicked : RandResult
deriving DecidableEq, Repr

/-- Modelled from the spec: the external `crypto/rand.Int(reader, max)`
used by random.go returns a value in `[0, max)` drawn from secure
entropy (abstracted as the `entropy` parameter) and panics when
`max ≤ 0`, per its documented contract. -/
def cryptoRandInt (entropy : ℤ) (maxVal : ℤ) : RandResult :=
  if maxVal ≤ 0 then RandResult.panicked else RandResult.ok (entropy % maxVal)

/-- `RandomInt` from random.go: guard `upperBound < 0` (note: not
`≤ 0`), then call `crypto/rand.Int` with `upperBound` as the exclusive
maximum. -/
def RandomInt (entropy : ℤ) (upperBound : ℤ) : RandResult :=
  if upperBound < 0 then RandResult.err "the RandomInt upper bound should be > 0"
  else cryptoRandInt entropy upperBound

/-- C9: the guard admits `upperBound = 0`, which `crypto/rand.Int`
answers with a panic instead of the documented error; negative bounds
error and positive bounds return an in-range value. -/
theorem RandomInt_zero_panics :
    RandomInt 0 0 = RandResult.panicked
      ∧ RandomInt 0 (-5) = RandResult.err "the RandomInt upper bound should be > 0"
      ∧ RandomInt 12 7 = RandResult.ok 5 := by
  exact ⟨rfl, rfl, by decide⟩

/-- Association-list lookup, the model of a Go map read (`m[k]` with the
`ok` flag). -/
def lookupKV {κ ν : Type} [DecidableEq κ] : List (κ × ν) → κ → Option ν
  | [], _ => none
  | e :: rest, key => if key = e.1 then some e.2 else lookupKV rest key

/-- Overwrite the value stored under `key`, the model of a Go map write
to an existing key. -/
def updateKV {κ ν : Type} [DecidableEq κ] (l : List (κ × ν)) (key : κ) (v : ν) :
    List (κ × ν) :=
  l.map (fun e => if e.1 = key then (key, v) else e)

theorem lookupKV_updateKV_self {κ ν : Type} [DecidableEq κ]
    (l : List (κ × ν)) (key : κ) (v : ν) :
    lookupKV (updateKV l key v) key = (lookupKV l key).map (fun _ => v) := by
  induction l with
  | nil => rfl
  | cons e rest ih =>
    simp only [updateKV, List.map_cons, lookupKV]
    by_cases h : e.1 = key
    · simp [h]
    · rw [if_neg h, if_neg (fun hk => h hk.symm), if_neg (fun hk => h hk.symm)]
      exact ih

theorem lookupKV_updateKV_ne {κ ν : Type} [DecidableEq κ]
    (l : List (κ × ν)) (key k2 : κ) (v : ν) (hne : k2 ≠ key) :
    lookupKV (updateKV l key v) k2 = lookupKV l k2 := by
  induction l with
  | nil => rfl
  | cons e rest ih =>
    by_cases h : e.1 = key
    · simp only [updateKV, List.map_cons, if_pos h, lookupKV]
      rw [if_neg hne, if_neg (fun hk : k2 = e.1 => hne (hk.trans h))]
      simpa [updateKV] using ih
    · simp only [updateKV, List.map_cons, if_neg h, lookupKV]
      by_cases h2 : k2 = e.1
      · rw [if_pos h2, if_pos h2]
      · rw [if_neg h2, if_neg h2]
        simpa [updateKV] using ih

theorem lookupKV_append_right {κ ν : Type} [DecidableEq κ]
    (l : List (κ × ν)) (key : κ) (e : κ × ν) (h : lookupKV l key = none) :
    lookupKV (l ++ [e]) key = if key = e.1 then some e.2 else none := by
  induction l with
  | nil => rfl
  | cons f rest ih =>
    simp only [lookupKV] at h ⊢
    by_cases hf : key = f.1
    · rw [if_pos hf] at h; exact absurd h (by simp)
    · rw [if_neg hf] at h ⊢
      exact ih h

theorem lookupKV_append_left {κ ν : Type} [DecidableEq κ]
    (l : List (κ × ν)) (key : κ) (e : κ × ν) (v : ν) (h : lookupKV l key = some v) :
    lookupKV (l ++ [e]) key = some v := by
  induction l with
  | nil => exact absurd h (by simp [lookupKV])
  | cons f rest ih =>
    simp only [lookupKV] at h ⊢
    by_cases hf : key = f.1
    · rw [if_pos hf] at h ⊢; exact h
    · rw [if_neg hf] at h ⊢
      exact ih h

theorem lookupKV_eq_none_iff {κ ν : Type} [DecidableEq κ]
    (l : List (κ × ν)) (key : κ) :
    lookupKV l key = none ↔ key ∉ l.map Prod.fst := by
  induction l with
  | nil => simp [lookupKV]
  | cons e rest ih =>
    simp only [lookupKV, List.map_cons, List.mem_cons]
    by_cases h : key = e.1
    · simp [h]
    · rw [if_neg h]
      simp [h, ih]

theorem updateKV_keys {κ ν : Type} [DecidableEq κ]
    (l : List (κ × ν)) (key : κ) (v : ν) :
    (updateKV l key v).map Prod.fst = l.map Prod.fst := by
  induction l with
  | nil => rfl
  | cons e rest ih =>
    simp only [updateKV, List.map_cons] at ih ⊢
    by_cases h : e.1 = key
    · rw [if_pos h]; simp [h, ih]
    · rw [if_neg h]; simp [ih]

/-- Total balance held in a ledger (or any association list of
balances). -/
def sumBalances {κ : Type} (l : List (κ × ℕ)) : ℕ := (l.map Prod.snd).sum

theorem updateKV_of_not_mem {κ ν : Type} [DecidableEq κ]
    (l : List (κ × ν)) (key : κ) (v : ν) (h : key ∉ l.map Prod.fst) :
    updateKV l key v = l := by
  induction l with
  | nil => rfl
  | cons e rest ih =>
    simp only [List.map_cons, List.mem_cons] at h
    push_neg at h
    simp only [updateKV, List.map_cons]
    rw [if_neg (fun he => h.1 he.symm)]
    simpa [updateKV] using ih h.2

theorem sumBalances_updateKV {κ : Type} [DecidableEq κ]
    (l : List (κ × ℕ)) (key : κ) (v w : ℕ)
    (hnd : (l.map Prod.fst).Nodup) (hl : lookupKV l key = some w) :
    sumBalances (updateKV l key v) + w = sumBalances l + v := by
  induction l with
  | nil => exact absurd hl (by simp [lookupKV])
  | cons e rest ih =>
    simp only [List.map_cons, List.nodup_cons] at hnd
    simp only [lookupKV] at hl
    by_cases h : key = e.1
    · rw [if_pos h] at hl
      have hw : e.2 = w := Option.some.inj hl
      have hrest : updateKV rest key v = rest :=
        updateKV_of_not_mem rest key v (h ▸ hnd.1)
      simp only [updateKV, List.map_cons]
      rw [if_pos h.symm]
      simp only [updateKV] at hrest
      rw [hrest]
      simp only [sumBalances, List.map_cons, List.sum_cons]
      omega
    · rw [if_neg h] at hl
      have := ih hnd.2 hl
      simp only [updateKV, List.map_cons]
      rw [if_neg (fun he => h he.symm)]
      simp only [sumBalances, List.map_cons, List.sum_cons] at this ⊢
      simp only [updateKV] at this
      omega

theorem sumBalances_append {κ : Type} (l : List (κ × ℕ)) (a : κ) :
    sumBalances (l ++ [(a, 0)]) = sumBalances l := by
  simp [sumBalances]

/-- `2^64`, the modulus of Go's `uint64` arithmetic. -/
def two64 : ℕ := 18446744073709551616

namespace LedgerState

/-- `LedgerState.Transfer` from ledger.go, with the ledger map passed
and returned explicitly (addresses are abstracted as naturals, balances
are `uint64` values).  The Go method looks up the sender, rejects
insufficient funds, creates the receiver account if absent, decrements
the sender (skipping the write when its balance is zero) and increments
the receiver; the receiver increment wraps modulo `2^64`.  When `sender
= receiver` both writes hit the same account, exactly as the two map
accesses alias in Go. -/
def Transfer (ls : List (ℕ × ℕ)) (sender receiver : ℕ) (amount : ℕ) :
    Except String Unit × List (ℕ × ℕ) :=
  match lookupKV ls sender with
  | none => (Except.error "Account can not be found in LedgerState.", ls)
  | some fromBalance =>
    if fromBalance < amount then
      (Except.error "Account does not have sufficient funds for transfer.", ls)
    else
      let ls1 := if lookupKV ls receiver = none then ls ++ [(receiver, 0)] else ls
      let ls2 := if fromBalance ≠ 0 then updateKV ls1 sender (fromBalance - amount) else ls1
      let toBalance := (lookupKV ls2 receiver).getD 0
      (Except.ok (), updateKV ls2 receiver ((toBalance + amount) % two64))

/-- Counterexample to C10 as stated: a successful self-transfer leaves
the sender's balance unchanged instead of decreasing it, and a transfer
to an account holding `2^64 - 1` wraps the receiver's balance instead
of increasing it (so the total is not preserved either). -/
theorem Transfer_counterexample :
    Transfer [(1, 100)] 1 1 42 = (Except.ok (), [(1, 100)])
      ∧ Transfer [(1, 5), (2, 18446744073709551615)] 1 2 3
          = (Except.ok (), [(1, 2), (2, 2)])
      ∧ sumBalances [(1, 2), (2, 2)] ≠ sumBalances [(1, 5), (2, 18446744073709551615)] := by
  exact ⟨by decide, by decide, by decide⟩

/-- C10 (amended).  For distinct sender and receiver addresses, a ledger
whose map keys are unique, and no `uint64` overflow of the receiver's
balance: a failed transfer (unknown sender or insufficient funds)
leaves every balance unchanged, and a successful transfer decreases the
sender by `amount`, increases the receiver by `amount` (creating it
with balance 0 first when absent) and preserves the sum of all
balances.  (A self-transfer leaves balances unchanged, and an
overflowing receiver balance wraps modulo `2^64`, as the counterexample
records.) -/
theorem Transfer_spec (ls : List (ℕ × ℕ)) (sender receiver amount : ℕ)
    (hne : sender ≠ receiver)
    (hnd : (ls.map Prod.fst).Nodup)
    (hnoflow : (lookupKV ls receiver).getD 0 + amount < two64) :
    (∀ e ls2, Transfer ls sender receiver amount = (Except.error e, ls2) → ls2 = ls)
      ∧ (∀ ls2, Transfer ls sender receiver amount = (Except.ok (), ls2) →
          ∃ fromBalance, lookupKV ls sender = some fromBalance
            ∧ amount ≤ fromBalance
            ∧ lookupKV ls2 sender = some (fromBalance - amount)
            ∧ lookupKV ls2 receiver = some ((lookupKV ls receiver).getD 0 + amount)
            ∧ sumBalances ls2 = sumBalances ls) := by
  unfold Transfer
  cases hfrom : lookupKV ls sender with
  | none =>
    exact ⟨fun e ls2 h => ((Prod.mk.injEq _ _ _ _).mp h).2.symm, fun ls2 h => by
      exact absurd ((Prod.mk.injEq _ _ _ _).mp h).1 (by simp)⟩
  | some fromBalance =>
    dsimp only
    by_cases hfunds : fromBalance < amount
    · rw [if_pos hfunds]
      exact ⟨fun e ls2 h => ((Prod.mk.injEq _ _ _ _).mp h).2.symm, fun ls2 h => by
        exact absurd ((Prod.mk.injEq _ _ _ _).mp h).1 (by simp)⟩
    · rw [if_neg hfunds]
      refine ⟨fun e ls2 h => by
        exact absurd ((Prod.mk.injEq _ _ _ _).mp h).1 (by simp), fun ls2 h => ?_⟩
      have hls2 := ((Prod.mk.injEq _ _ _ _).mp h).2
      refine ⟨fromBalance, rfl, by omega, ?_⟩
      -- names for the intermediate ledgers built by the Go method
      set ls1 := if lookupKV ls receiver = none then ls ++ [(receiver, 0)] else ls with hls1
      set lsb := if fromBalance ≠ 0 then updateKV ls1 sender (fromBalance - amount) else ls1
        with hlsb
      have hkeys1 : ls1.map Prod.fst = ls.map Prod.fst
          ∨ (ls1.map Prod.fst = ls.map Prod.fst ++ [receiver]
              ∧ lookupKV ls receiver = none) := by
        by_cases hr : lookupKV ls receiver = none
        · right
          refine ⟨?_, hr⟩
          rw [hls1, if_pos hr]
          simp
        · left
          rw [hls1, if_neg hr]
      have hnd1 : (ls1.map Prod.fst).Nodup := by
        rcases hkeys1 with h1 | ⟨h1, h2⟩
        · rw [h1]; exact hnd
        · rw [h1]
          rw [List.nodup_append]
          refine ⟨hnd, List.nodup_singleton _, ?_⟩
          intro x hx hx1
          simp only [List.mem_singleton] at hx1
          exact absurd hx (hx1 ▸ (lookupKV_eq_none_iff ls receiver).mp h2)
      -- sender lookups in ls1
      have hfrom1 : lookupKV ls1 sender = some fromBalance := by
        by_cases hr : lookupKV ls receiver = none
        · rw [hls1, if_pos hr]
          exact lookupKV_append_left ls sender _ _ hfrom
        · rw [hls1, if_neg hr]
          exact hfrom
      -- receiver lookups in ls1: its old balance (0 when created)
      have hrecv1 : lookupKV ls1 receiver = some ((lookupKV ls receiver).getD 0) := by
        cases hr : lookupKV ls receiver with
        | none =>
          rw [hls1, if_pos hr]
          rw [lookupKV_append_right ls receiver _ hr, if_pos rfl]
          rfl
        | some tb =>
          rw [hls1, if_neg (by rw [hr]; exact fun hc => by cases hc)]
          rw [hr]
          rfl
      -- sender's balance after the decrement
      have hfromb : lookupKV lsb sender = some (fromBalance - amount) := by
        by_cases hz : fromBalance ≠ 0
        · rw [hlsb, if_pos hz, lookupKV_updateKV_self, hfrom1]
          rfl
        · push_neg at hz
          have hz2 : fromBalance - amount = fromBalance := by omega
          rw [hz2, hlsb, if_neg (by simpa using hz)]
          exact hfrom1
      -- receiver's balance is untouched by the decrement
      have hrecvb : lookupKV lsb receiver = some ((lookupKV ls receiver).getD 0) := by
        by_cases hz : fromBalance ≠ 0
        · rw [hlsb, if_pos hz, lookupKV_updateKV_ne _ _ _ _ (fun hc => hne hc.symm)]
          exact hrecv1
        · rw [hlsb, if_neg (by simpa using hz)]
          exact hrecv1
      have hkeysb : lsb.map Prod.fst = ls1.map Prod.fst := by
        by_cases hz : fromBalance ≠ 0
        · rw [hlsb, if_pos hz, updateKV_keys]
        · rw [hlsb, if_neg (by simpa using hz)]
      have hndb : (lsb.map Prod.fst).Nodup := hkeysb ▸ hnd1
      have hsum1 : sumBalances ls1 = sumBalances ls := by
        by_cases hr : lookupKV ls receiver = none
        · rw [hls1, if_pos hr, sumBalances_append]
        · rw [hls1, if_neg hr]
      have hsumb : sumBalances lsb + amount = sumBalances ls1 := by
        by_cases hz : fromBalance ≠ 0
        · have := sumBalances_updateKV ls1 sender (fromBalance - amount) fromBalance hnd1 hfrom1
          rw [hlsb, if_pos hz]
          omega
        · push_neg at hz
          rw [hlsb, if_neg (by simpa using hz)]
          omega
      -- the final increment of the receiver
      have hmod : ((lookupKV ls receiver).getD 0 + amount) % two64
          = (lookupKV ls receiver).getD 0 + amount := Nat.mod_eq_of_lt hnoflow
      have hfinal : ls2 = updateKV lsb receiver
          (((lookupKV lsb receiver).getD 0 + amount) % two64) := hls2.symm
      rw [hrecvb] at hfinal
      simp only [Option.getD_some] at hfinal
      refine ⟨?_, ?_, ?_⟩
      · rw [hfinal, lookupKV_updateKV_ne _ _ _ _ hne]
        exact hfromb
      · rw [hfinal, lookupKV_updateKV_self, hrecvb, hmod]
        rfl
      · have := sumBalances_updateKV lsb receiver
          (((lookupKV ls receiver).getD 0 + amount) % two64)
          ((lookupKV ls receiver).getD 0) hndb hrecvb
        rw [hfinal]
        omega

/-- Witness for C10: transferring 42 from an account holding 100 to a
fresh account. -/
theorem Transfer_spec_witness :
    ((1 : ℕ) ≠ 2 ∧ (([(1, 100)] : List (ℕ × ℕ)).map Prod.fst).Nodup
        ∧ (lookupKV [(1, 100)] 2).getD 0 + 42 < two64)
      ∧ (∀ ls2, Transfer [(1, 100)] 1 2 42 = (Except.ok (), ls2) →
          ∃ fromBalance, lookupKV [(1, 100)] 1 = some fromBalance
            ∧ 42 ≤ fromBalance
            ∧ lookupKV ls2 1 = some (fromBalance - 42)
            ∧ lookupKV ls2 2 = some ((lookupKV [(1, 100)] 2).getD 0 + 42)
            ∧ sumBalances ls2 = sumBalances [(1, 100)]) :=
  ⟨⟨by decide, by decide, by decide⟩,
    (Transfer_spec [(1, 100)] 1 2 42 (by decide) (by decide) (by decide)).2⟩

end LedgerState

namespace PoIMessageTracker

/-- The equivocation tracker state from network/poi.go: for each
(sender address, dependency) pair, the single message recorded so far.
Go uses nested maps keyed by the hex strings of the address and the
hash, which is keyed here by the values themselves (hex encoding is
injective). -/
abbrev Tracker : Type := List ((SymVal × SymVal) × SymVal)

/-- `PoIMessageTracker.CheckAndRecord` from network/poi.go: reject a
second, different message for the same (sender, dependency) pair as
double-touring; accept and do not re-record an identical message;
record a first message. -/
def CheckAndRecord (t : Tracker) (sender dependency message : SymVal) :
    Except String Unit × Tracker :=
  match lookupKV t (sender, dependency) with
  | some existingMsg =>
    if existingMsg ≠ message then (Except.error "double-touring attempt detected", t)
    else (Except.ok (), t)
  | none => (Except.ok (), ((sender, dependency), message) :: t)

/-- `PoIMessageTracker.Clear` from network/poi.go: drop the entry for
`dependency` from every sender's submap. -/
def Clear (t : Tracker) (dependency : SymVal) : Tracker :=
  t.filter (fun e => e.1.2 ≠ dependency)

theorem lookupKV_Clear (t : Tracker) (sender dependency : SymVal) :
    lookupKV (Clear t dependency) (sender, dependency) = none := by
  induction t with
  | nil => rfl
  | cons e rest ih =>
    simp only [Clear, List.filter_cons]
    by_cases h : e.1.2 = dependency
    · simp only [h]
      simpa [Clear] using ih
    · rw [if_pos (by simpa using h)]
      simp only [lookupKV]
      rw [if_neg (fun hc : (sender, dependency) = e.1 => h (by rw [← hc]))]
      simpa [Clear] using ih

/-- C4.  After `CheckAndRecord(sender, d, m1)` succeeds, a call with a
different message `m2` fails with the double-touring error and changes
nothing, a repeat call with the same `m1` succeeds again and changes
nothing, and after `Clear(d)` a fresh message `m3` is accepted. -/
theorem CheckAndRecord_equivocation (t t' : Tracker) (sender d m1 m2 m3 : SymVal)
    (hne : m1 ≠ m2)
    (h1 : CheckAndRecord t sender d m1 = (Except.ok (), t')) :
    CheckAndRecord t' sender d m2 = (Except.error "double-touring attempt detected", t')
      ∧ CheckAndRecord t' sender d m1 = (Except.ok (), t')
      ∧ CheckAndRecord (Clear t' d) sender d m3
          = (Except.ok (), ((sender, d), m3) :: Clear t' d) := by
  have hlook : lookupKV t' (sender, d) = some m1 := by
    unfold CheckAndRecord at h1
    cases hl : lookupKV t (sender, d) with
    | none =>
      rw [hl] at h1
      have ht' : ((sender, d), m1) :: t = t' := ((Prod.mk.injEq _ _ _ _).mp h1).2
      rw [← ht']
      simp [lookupKV]
    | some ex =>
      rw [hl] at h1
      dsimp only at h1
      by_cases hex : ex ≠ m1
      · rw [if_pos hex] at h1
        exact absurd ((Prod.mk.injEq _ _ _ _).mp h1).1 (by simp)
      · push_neg at hex
        rw [if_neg (by simpa using hex)] at h1
        have ht' : t = t' := ((Prod.mk.injEq _ _ _ _).mp h1).2
        rw [← ht', hl, hex]
  refine ⟨?_, ?_, ?_⟩
  · unfold CheckAndRecord
    rw [hlook]
    dsimp only
    rw [if_pos hne]
  · unfold CheckAndRecord
    rw [hlook]
    dsimp only
    rw [if_neg (by simp)]
  · unfold CheckAndRecord
    rw [lookupKV_Clear]

/-- Witness for C4: one sender, two conflicting messages, then a clear. -/
theorem CheckAndRecord_equivocation_witness :
    (SymVal.raw 10 ≠ SymVal.raw 11
        ∧ CheckAndRecord [] (SymVal.raw 1) (SymVal.raw 2) (SymVal.raw 10)
            = (Except.ok (), [((SymVal.raw 1, SymVal.raw 2), SymVal.raw 10)]))
      ∧ CheckAndRecord [((SymVal.raw 1, SymVal.raw 2), SymVal.raw 10)]
          (SymVal.raw 1) (SymVal.raw 2) (SymVal.raw 11)
          = (Except.error "double-touring attempt detected",
              [((SymVal.raw 1, SymVal.raw 2), SymVal.raw 10)]) :=
  ⟨⟨by decide, by decide⟩,
    (CheckAndRecord_equivocation [] [((SymVal.raw 1, SymVal.raw 2), SymVal.raw 10)]
      (SymVal.raw 1) (SymVal.raw 2) (SymVal.raw 10) (SymVal.raw 11) (SymVal.raw 12)
      (by decide) (by decide)).1⟩

end PoIMessageTracker

/-- `Transaction` from core/transaction.go.  `Data` is an opaque byte
string, `To` an address, `From` the marshalled public key (Go's nil
slice before signing is `none`), `hash` the private cache field (the
zero hash `hZero` when unset).  `Nonce` is drawn once at creation; its
value is all the claims use, so it is kept as a natural. -/
structure Transaction where
  Data : SymVal
  To : SymVal
  Value : ℕ
  From : Option SymVal
  Signature : Option SymVal
  Nonce : ℕ
  hash : SymVal
deriving DecidableEq, Repr

/-- `TxHasher.Hash` from core/hasher.go: BLAKE2b-256 over the canonical
field order `to || value || from || nonce || data`.  `binary.Write` of a
nil `From` slice writes no bytes, so the unsigned shape omits that
component. -/
def TxHasherHash (tx : Transaction) : SymVal :=
  match tx.From with
  | none => SymVal.blake (SymVal.cat tx.To (SymVal.cat (SymVal.raw tx.Value)
      (SymVal.cat (SymVal.raw tx.Nonce) tx.Data)))
  | some f => SymVal.blake (SymVal.cat tx.To (SymVal.cat (SymVal.raw tx.Value)
      (SymVal.cat f (SymVal.cat (SymVal.raw tx.Nonce) tx.Data))))

namespace Transaction

/-- `Transaction.Hash` from core/transaction.go: return the cached hash,
computing and caching it first when the cache holds the zero sentinel.
The mutation of the receiver is made explicit in the second component. -/
def Hash (tx : Transaction) : SymVal × Transaction :=
  if tx.hash = hZero then (TxHasherHash tx, { tx with hash := TxHasherHash tx })
  else (tx.hash, tx)

/-- `Transaction.InvalidateHash` from core/transaction.go. -/
def InvalidateHash (tx : Transaction) : Transaction := { tx with hash := hZero }

/-- `Transaction.Sign` from core/transaction.go: compute (and cache) the
transaction hash, sign it, then set `From` and `Signature`.  Note the
hash is taken before `From` is assigned and the cache is left filled. -/
def Sign (tx : Transaction) (privKey : ℕ) : Transaction :=
  let h := (Hash tx).1
  let tx1 := (Hash tx).2
  { tx1 with From := some (SymVal.pub privKey), Signature := some (SymVal.sig privKey h) }

end Transaction

/-- `Signature.Verify` from crypto/keypair.go: an ECDSA signature
verifies against a public key and a digest exactly when it was produced
by that key's private half over that digest (deterministic-signature
idealization of the external ECDSA library). -/
def sigVerify (sg : SymVal) (pubKey : SymVal) (data : SymVal) : Bool :=
  match sg with
  | SymVal.sig k h => decide (pubKey = SymVal.pub k ∧ data = h)
  | _ => false

namespace Transaction

/-- `Transaction.Verify` from core/transaction.go: missing signature is
an error; otherwise verify the signature against `From` over the
(cached) transaction hash. -/
def Verify (tx : Transaction) : Except String Unit × Transaction :=
  match tx.Signature with
  | none => (Except.error "The verified transaction has no signature.", tx)
  | some sg =>
    let h := (Hash tx).1
    let tx1 := (Hash tx).2
    if sigVerify sg (tx1.From.getD hZero) h then (Except.ok (), tx1)
    else (Except.error "Tx signature verification failed.", tx1)

end Transaction

theorem TxHasherHash_ne_hZero (tx : Transaction) : TxHasherHash tx ≠ hZero := by
  unfold TxHasherHash hZero
  cases tx.From <;> simp

/-- Counterexample to C7 as stated: signing a fresh transaction leaves
the hash cache filled (not invalidated) with the hash taken before
`From` was set, and the signature does not verify over the canonical
hash recomputed from the final field values (which now include
`From`). -/
theorem Transaction_Sign_counterexample :
    (Transaction.Sign ⟨SymVal.raw 10, SymVal.raw 11, 42, none, none, 7, hZero⟩ 3).From
        = some (SymVal.pub 3)
      ∧ (Transaction.Sign ⟨SymVal.raw 10, SymVal.raw 11, 42, none, none, 7, hZero⟩ 3).hash
        ≠ hZero
      ∧ sigVerify
          ((Transaction.Sign ⟨SymVal.raw 10, SymVal.raw 11, 42, none, none, 7, hZero⟩ 3).Signature.getD hZero)
          ((Transaction.Sign ⟨SymVal.raw 10, SymVal.raw 11, 42, none, none, 7, hZero⟩ 3).From.getD hZero)
          (TxHasherHash (Transaction.Sign ⟨SymVal.raw 10, SymVal.raw 11, 42, none, none, 7, hZero⟩ 3))
        = false := by
  exact ⟨rfl, by decide, by decide⟩

/-- C7 (amended).  After `tx.Sign(k)` on a transaction with an unset
hash cache: `From` is k's public key; the cache holds the canonical
hash of the transaction as it was at signing time (with the pre-call
`From`), and is not invalidated; the signature is over that pre-call
canonical hash and verifies against k's public key over it; hence the
code's own `Verify`, which reads the cache, succeeds. -/
theorem Transaction_Sign_spec (tx : Transaction) (privKey : ℕ)
    (hfresh : tx.hash = hZero) :
    (tx.Sign privKey).From = some (SymVal.pub privKey)
      ∧ (tx.Sign privKey).hash = TxHasherHash tx
      ∧ (tx.Sign privKey).hash ≠ hZero
      ∧ (tx.Sign privKey).Signature = some (SymVal.sig privKey (TxHasherHash tx))
      ∧ sigVerify (SymVal.sig privKey (TxHasherHash tx)) (SymVal.pub privKey)
          (TxHasherHash tx) = true
      ∧ ((tx.Sign privKey).Verify).1 = Except.ok () := by
  have h1 : Transaction.Hash tx = (TxHasherHash tx, { tx with hash := TxHasherHash tx }) := by
    unfold Transaction.Hash
    rw [if_pos hfresh]
  unfold Transaction.Sign
  rw [h1]
  dsimp only
  refine ⟨rfl, rfl, TxHasherHash_ne_hZero tx, rfl, by simp [sigVerify], ?_⟩
  unfold Transaction.Verify
  dsimp only
  unfold Transaction.Hash
  dsimp only
  rw [if_neg (TxHasherHash_ne_hZero tx)]
  dsimp only
  simp [sigVerify]

/-- Witness for C7 on a concrete fresh transaction. -/
theorem Transaction_Sign_spec_witness :
    ((⟨SymVal.raw 10, SymVal.raw 11, 42, none, none, 7, hZero⟩ : Transaction).hash = hZero)
      ∧ ((Transaction.Sign ⟨SymVal.raw 10, SymVal.raw 11, 42, none, none, 7, hZero⟩ 5).Verify).1
          = Except.ok () :=
  ⟨by decide,
    (Transaction_Sign_spec ⟨SymVal.raw 10, SymVal.raw 11, 42, none, none, 7, hZero⟩ 5
      (by decide)).2.2.2.2.2⟩

/-- `ProofOfInteraction` from poi.go: the initial signature `s0` and the
flat list of alternating (service, initiator) tour signatures. -/
structure ProofOfInteraction where
  InitialSig : SymVal
  TourSignatures : List SymVal
deriving DecidableEq, Repr

/-- `PoIContext` from poi.go. -/
structure PoIContext where
  Nodes : List SymVal
  Difficulty : Difficulty
deriving DecidableEq, Repr

/-- `SignatureRequest` from poi.go. -/
structure SignatureRequest where
  Hash : SymVal
  Dependency : SymVal
  Message : SymVal
  From : SymVal
deriving DecidableEq, Repr

/-- `SignatureRequest.Bytes` from poi.go: `Hash || Dependency ||
Message` (the `From` address is not part of the signed bytes). -/
def SignatureRequest.Bytes (sr : SignatureRequest) : SymVal :=
  SymVal.cat sr.Hash (SymVal.cat sr.Dependency sr.Message)

/-- `PublicKey.Address`: the BLAKE2b-256 digest of the marshalled key. -/
def addrOf (pubKey : SymVal) : SymVal := SymVal.blake pubKey

/-- The signature provider assumed by C1: each request is answered by
signing `BLAKE2b-256(req.Hash || req.Dependency || req.Message)` with
the private key of the requested service node, exactly the signing step
of `Blockchain.HandleSignatureRequest`.  Only honestly marshalled keys
have a private half. -/
def honestProvider (req : SignatureRequest) (service : SymVal) : Except String SymVal :=
  match service with
  | SymVal.pub k => Except.ok (SymVal.sig k (SymVal.blake req.Bytes))
  | _ => Except.error "service node not found in node list"

/-- The tour loop of `GeneratePoI` (poi.go, step 6): at each hop select
the next service from the current hash, request its signature, counter-
sign it, and chain the hash.  Returns the flat signature list for the
remaining `n` hops starting from `currentHash`. -/
def genTour (services : List SymVal) (initiator : ℕ) (dependency message : SymVal)
    (signatureProvider : SignatureRequest → SymVal → Except String SymVal) :
    ℕ → SymVal → Except String (List SymVal)
  | 0, _ => Except.ok []
  | n + 1, currentHash =>
    let nextService := services.getD (hashToIndex currentHash services.length) hZero
    let req : SignatureRequest :=
      ⟨currentHash, dependency, message, addrOf (SymVal.pub initiator)⟩
    match signatureProvider req nextService with
    | Except.error e => Except.error e
    | Except.ok serviceSig =>
      let initiatorSig := SymVal.sig initiator (SymVal.blake serviceSig)
      match genTour services initiator dependency message signatureProvider n
          (SymVal.blake initiatorSig) with
      | Except.error e => Except.error e
      | Except.ok rest => Except.ok (serviceSig :: initiatorSig :: rest)

/-- `GeneratePoI` from poi.go. -/
def GeneratePoI {σ : Type} (step : σ → ℕ → ℕ × σ) (seedInit : SymVal → σ)
    (initiator : ℕ) (dependency message : SymVal) (ctx : PoIContext)
    (signatureProvider : SignatureRequest → SymVal → Except String SymVal) :
    Except String ProofOfInteraction :=
  if ctx.Nodes.length = 0 then Except.error "node list cannot be empty"
  else
    let s0 := SymVal.sig initiator dependency
    let services := createServices step seedInit ctx.Nodes s0
    if services.length = 0 then Except.error "node list cannot be empty"
    else
      match tourLength step seedInit ctx.Difficulty s0 with
      | Except.error e => Except.error e
      | Except.ok len =>
        match genTour services initiator dependency message signatureProvider len
            (SymVal.blake (SymVal.cat s0 message)) with
        | Except.error e => Except.error e
        | Except.ok sigs => Except.ok ⟨s0, sigs⟩

/-- The verification loop of `CheckPoI` (poi.go, step 4), recursing over
the remaining hop count and consuming the signature list two entries at
a time; a missing pair is the in-loop bounds failure, and entries past
`2·L` are ignored exactly as the indexed Go loop ignores them. -/
def checkTour (services : List SymVal) (initiator dependency message : SymVal) :
    ℕ → List SymVal → SymVal → Except String Unit
  | 0, _, _ => Except.ok ()
  | n + 1, serviceSig :: initiatorSig :: rest, currentHash =>
    let expectedService := services.getD (hashToIndex currentHash services.length) hZero
    let reqHash := SymVal.blake (SymVal.cat currentHash (SymVal.cat dependency message))
    match recover serviceSig reqHash with
    | none => Except.error "invalid service signature"
    | some servicePubKey =>
      if servicePubKey ≠ expectedService then Except.error "invalid service node in tour"
      else
        match recover initiatorSig (SymVal.blake serviceSig) with
        | none => Except.error "invalid initiator signature"
        | some k =>
          if k ≠ initiator then Except.error "initiator signature not from claimed initiator"
          else checkTour services initiator dependency message n rest
              (SymVal.blake initiatorSig)
  | _ + 1, _, _ => Except.error "PoI tour signatures incomplete"

/-- `CheckPoI` from poi.go. -/
def CheckPoI {σ : Type} (step : σ → ℕ → ℕ × σ) (seedInit : SymVal → σ)
    (poi : ProofOfInteraction) (initiator dependency message : SymVal)
    (ctx : PoIContext) : Except String Unit :=
  match recover poi.InitialSig dependency with
  | none => Except.error "invalid initial signature"
  | some s0PubKey =>
    if s0PubKey ≠ initiator then Except.error "initial signature not from claimed initiator"
    else
      let services := createServices step seedInit ctx.Nodes poi.InitialSig
      if services.length = 0 then Except.error "node list cannot be empty"
      else
        match tourLength step seedInit ctx.Difficulty poi.InitialSig with
        | Except.error e => Except.error e
        | Except.ok expectedLength =>
          if poi.TourSignatures.length / 2 ≠ expectedLength then
            Except.error "PoI length does not match expected tour length"
          else
            checkTour services initiator dependency message expectedLength
              poi.TourSignatures (SymVal.blake (SymVal.cat poi.InitialSig message))

theorem getD_mem_of_lt {α : Type} (l : List α) (i : ℕ) (d : α) (h : i < l.length) :
    l.getD i d ∈ l := by
  induction l generalizing i with
  | nil => simp at h
  | cons a rest ih =>
    cases i with
    | zero => simp
    | succ n =>
      simp only [List.getD_cons_succ]
      exact List.mem_cons_of_mem _ (ih n (by simpa using h))

theorem recover_eq_pub (k : ℕ) (h : SymVal) :
    recover (SymVal.sig k h) h = some (SymVal.pub k) := by
  simp [recover]

theorem recover_sig_ne (k : ℕ) (h d : SymVal) (hne : d ≠ h) :
    recover (SymVal.sig k h) d = some (SymVal.badkey (SymVal.sig k h) d) := by
  simp [recover, hne]

/-- Tampering law of the recovery idealization: a value that is not the
designated signature of `k` over `d` never recovers to `k`'s public
key. -/
theorem recover_tamper (v d : SymVal) (k : ℕ) (hv : v ≠ SymVal.sig k d) :
    ∀ pk, recover v d = some pk → pk ≠ SymVal.pub k := by
  intro pk hr hc
  cases v with
  | raw n => simp [recover] at hr
  | cat a b => simp [recover] at hr
  | blake a => simp [recover] at hr
  | pub a => simp [recover] at hr
  | badkey a b => simp [recover] at hr
  | sig k2 h2 =>
    simp only [recover] at hr
    by_cases hh : d = h2
    · rw [if_pos hh] at hr
      have hpk : pk = SymVal.pub k2 := (Option.some.inj hr).symm
      rw [hpk] at hc
      have hk : k2 = k := by injection hc
      exact hv (by rw [hk, hh])
    · rw [if_neg hh] at hr
      have hpk : pk = SymVal.badkey (SymVal.sig k2 h2) d := (Option.some.inj hr).symm
      rw [hpk] at hc
      exact SymVal.noConfusion hc

/-- Soundness of one honest tour: with honest service nodes the
generation loop succeeds, produces `2·n` signatures, the verification
loop accepts them from the same starting hash, the first hop's service
signature is over the request hash of the starting hash, and replacing
any single signature makes the verification loop reject. -/
theorem genTour_sound (services : List SymVal) (initiator : ℕ)
    (dependency message : SymVal)
    (hserv : ∀ x ∈ services, ∃ k, x = SymVal.pub k)
    (hlen : services.length ≠ 0) :
    ∀ (n : ℕ) (currentHash : SymVal), ∃ sigs,
      genTour services initiator dependency message honestProvider n currentHash
          = Except.ok sigs
        ∧ sigs.length = 2 * n
        ∧ checkTour services (SymVal.pub initiator) dependency message n sigs currentHash
            = Except.ok ()
        ∧ (0 < n → ∃ k1 rest2, sigs
            = SymVal.sig k1 (SymVal.blake (SymVal.cat currentHash
                (SymVal.cat dependency message)))
              :: SymVal.sig initiator (SymVal.blake (SymVal.sig k1
                (SymVal.blake (SymVal.cat currentHash (SymVal.cat dependency message)))))
              :: rest2)
        ∧ ∀ (i : ℕ) (v : SymVal), i < sigs.length → v ≠ sigs.getD i hZero →
            checkTour services (SymVal.pub initiator) dependency message n
              (sigs.set i v) currentHash ≠ Except.ok () := by
  intro n
  induction n with
  | zero =>
    intro currentHash
    exact ⟨[], rfl, rfl, rfl, fun h0 => absurd h0 (by omega), fun i v hi _ => by simp at hi⟩
  | succ m ih =>
    intro currentHash
    have hpos : 0 < services.length := Nat.pos_of_ne_zero hlen
    have hidx : hashToIndex currentHash services.length < services.length := by
      unfold hashToIndex
      rw [if_neg hlen]
      exact Nat.mod_lt _ hpos
    obtain ⟨k1, hk1⟩ := hserv _ (getD_mem_of_lt services _ hZero hidx)
    have hk1' : (services[hashToIndex currentHash services.length]?).getD hZero
        = SymVal.pub k1 := by simpa using hk1
    obtain ⟨rest, hg, hl, hc, _, ht⟩ := ih (SymVal.blake (SymVal.sig initiator
      (SymVal.blake (SymVal.sig k1 (SymVal.blake (SymVal.cat currentHash
        (SymVal.cat dependency message)))))))
    refine ⟨SymVal.sig k1 (SymVal.blake (SymVal.cat currentHash
          (SymVal.cat dependency message)))
        :: SymVal.sig initiator (SymVal.blake (SymVal.sig k1 (SymVal.blake
          (SymVal.cat currentHash (SymVal.cat dependency message)))))
        :: rest, ?_, ?_, ?_, fun _ => ⟨k1, rest, rfl⟩, ?_⟩
    · simp [genTour, hk1, hk1', honestProvider, SignatureRequest.Bytes, hg]
    · simp only [List.length_cons, hl]
      omega
    · simp [checkTour, hk1, hk1', recover_eq_pub, hc]
    · intro i v hi hv
      rcases i with _ | (_ | j)
      · -- the service signature of this hop is replaced
        intro hcontra
        simp only [List.getD_cons_zero] at hv
        simp only [List.set_cons_zero] at hcontra
        simp only [checkTour] at hcontra
        cases hr : recover v (SymVal.blake (SymVal.cat currentHash
            (SymVal.cat dependency message))) with
        | none => simp [hr] at hcontra
        | some pk =>
          have hne2 : pk ≠ SymVal.pub k1 := recover_tamper v _ k1 hv pk hr
          rw [hr] at hcontra
          dsimp only at hcontra
          rw [hk1, if_pos hne2] at hcontra
          exact Except.noConfusion hcontra
      · -- the initiator counter-signature of this hop is replaced
        intro hcontra
        simp only [List.getD_cons_succ, List.getD_cons_zero] at hv
        simp only [List.set_cons_succ, List.set_cons_zero] at hcontra
        simp only [checkTour] at hcontra
        rw [recover_eq_pub] at hcontra
        dsimp only at hcontra
        rw [hk1, if_neg (by simp)] at hcontra
        cases hr : recover v (SymVal.blake (SymVal.sig k1 (SymVal.blake
            (SymVal.cat currentHash (SymVal.cat dependency message))))) with
        | none => simp [hr] at hcontra
        | some pk =>
          have hne2 : pk ≠ SymVal.pub initiator := recover_tamper v _ initiator hv pk hr
          rw [hr] at hcontra
          dsimp only at hcontra
          rw [if_pos hne2] at hcontra
          exact Except.noConfusion hcontra
      · -- a later signature is replaced: the first hop still checks, recurse
        intro hcontra
        simp only [List.getD_cons_succ] at hv
        simp only [List.set_cons_succ] at hcontra
        simp only [checkTour] at hcontra
        rw [recover_eq_pub] at hcontra
        dsimp only at hcontra
        rw [hk1, if_neg (by simp)] at hcontra
        rw [recover_eq_pub] at hcontra
        dsimp only at hcontra
        rw [if_neg (by simp)] at hcontra
        refine ht j v ?_ hv hcontra
        simp only [List.length_cons] at hi
        omega

/-- C1 (amended).  For a node list of at least two honest nodes and a
valid difficulty, with the signature provider answering every request by
signing `BLAKE2b-256(req.Hash || req.Dependency || req.Message)` with
the requested service node's private key (as
`Blockchain.HandleSignatureRequest` does): `GeneratePoI` succeeds,
`CheckPoI` accepts under the same initiator key, dependency, message and
context, and changing the initiator key, the dependency, the message,
the initial signature, or any single tour signature makes `CheckPoI`
reject.  (A singleton node list makes `GeneratePoI` fail, because the
service subset `|N|/2` is empty; see the counterexample.) -/
theorem GeneratePoI_CheckPoI_roundtrip {σ : Type} (step : σ → ℕ → ℕ × σ)
    (seedInit : SymVal → σ) (initiator : ℕ) (privs : List ℕ)
    (dependency message : SymVal) (d : Difficulty)
    (hn : 2 ≤ privs.length)
    (hd : d.Min ≠ 0 ∧ d.Max ≠ 0 ∧ d.Min ≤ d.Max) :
    ∃ poi,
      GeneratePoI step seedInit initiator dependency message
          ⟨privs.map SymVal.pub, d⟩ honestProvider = Except.ok poi
      ∧ CheckPoI step seedInit poi (SymVal.pub initiator) dependency message
          ⟨privs.map SymVal.pub, d⟩ = Except.ok ()
      ∧ (∀ pk, pk ≠ SymVal.pub initiator →
          CheckPoI step seedInit poi pk dependency message
            ⟨privs.map SymVal.pub, d⟩ ≠ Except.ok ())
      ∧ (∀ dep2, dep2 ≠ dependency →
          CheckPoI step seedInit poi (SymVal.pub initiator) dep2 message
            ⟨privs.map SymVal.pub, d⟩ ≠ Except.ok ())
      ∧ (∀ msg2, msg2 ≠ message →
          CheckPoI step seedInit poi (SymVal.pub initiator) dependency msg2
            ⟨privs.map SymVal.pub, d⟩ ≠ Except.ok ())
      ∧ (∀ i v, i < poi.TourSignatures.length → v ≠ poi.TourSignatures.getD i hZero →
          CheckPoI step seedInit ⟨poi.InitialSig, poi.TourSignatures.set i v⟩
            (SymVal.pub initiator) dependency message
            ⟨privs.map SymVal.pub, d⟩ ≠ Except.ok ())
      ∧ (∀ v, v ≠ poi.InitialSig →
          CheckPoI step seedInit ⟨v, poi.TourSignatures⟩ (SymVal.pub initiator)
            dependency message ⟨privs.map SymVal.pub, d⟩ ≠ Except.ok ()) := by
  obtain ⟨hm0, hx0, hmm⟩ := hd
  have hnlen : (privs.map SymVal.pub).length = privs.length := List.length_map _ _
  have hn0 : (privs.map SymVal.pub).length ≠ 0 := by omega
  have hslen : (createServices step seedInit (privs.map SymVal.pub)
      (SymVal.sig initiator dependency)).length
      = min 20 (min (privs.length / 2) privs.length) := by
    rw [createServices_length, hnlen]
  have hs0 : (createServices step seedInit (privs.map SymVal.pub)
      (SymVal.sig initiator dependency)).length ≠ 0 := by
    rw [hslen]; omega
  have hserv : ∀ x ∈ createServices step seedInit (privs.map SymVal.pub)
      (SymVal.sig initiator dependency), ∃ k, x = SymVal.pub k := by
    intro x hx
    have hxn := createServices_mem step seedInit _ _ x hx
    rcases List.mem_map.mp hxn with ⟨k, _, hk⟩
    exact ⟨k, hk.symm⟩
  have htl : tourLength step seedInit d (SymVal.sig initiator dependency)
      = Except.ok (d.Min + (step (seedInit (SymVal.sig initiator dependency))
          (d.Max - d.Min + 1)).1) := by
    unfold tourLength Difficulty.Validate
    rw [if_neg (by tauto), if_neg (by omega)]
  obtain ⟨sigs, hg, hlen2, hchk, hhead, htam⟩ :=
    genTour_sound (createServices step seedInit (privs.map SymVal.pub)
        (SymVal.sig initiator dependency)) initiator dependency message hserv hs0
      (d.Min + (step (seedInit (SymVal.sig initiator dependency)) (d.Max - d.Min + 1)).1)
      (SymVal.blake (SymVal.cat (SymVal.sig initiator dependency) message))
  have hcond : ¬(sigs.length / 2 ≠ d.Min + (step (seedInit (SymVal.sig initiator dependency)) (d.Max - d.Min + 1)).1) := by omega
  have hcondset : ∀ (i : ℕ) (v : SymVal),
      ¬((sigs.set i v).length / 2 ≠ d.Min + (step (seedInit (SymVal.sig initiator dependency)) (d.Max - d.Min + 1)).1) := by
    intro i v
    rw [List.length_set]
    omega
  refine ⟨⟨SymVal.sig initiator dependency, sigs⟩, ?_, ?_, ?_, ?_, ?_, ?_, ?_⟩
  · -- GeneratePoI succeeds
    simp only [GeneratePoI]
    rw [if_neg hn0, if_neg hs0, htl]
    dsimp only
    rw [hg]
  · -- CheckPoI accepts
    simp only [CheckPoI]
    rw [recover_eq_pub]
    dsimp only
    rw [if_neg (by simp), if_neg hs0, htl]
    dsimp only
    rw [if_neg hcond]
    exact hchk
  · -- a different initiator public key is rejected
    intro pk hpk hcontra
    simp only [CheckPoI] at hcontra
    rw [recover_eq_pub] at hcontra
    dsimp only at hcontra
    rw [if_pos (Ne.symm hpk)] at hcontra
    exact Except.noConfusion hcontra
  · -- a different dependency is rejected
    intro dep2 hdep hcontra
    simp only [CheckPoI] at hcontra
    rw [recover_sig_ne initiator dependency dep2 hdep] at hcontra
    dsimp only at hcontra
    rw [if_pos (by simp)] at hcontra
    exact Except.noConfusion hcontra
  · -- a different message is rejected
    intro msg2 hmsg hcontra
    simp only [CheckPoI] at hcontra
    rw [recover_eq_pub] at hcontra
    dsimp only at hcontra
    rw [if_neg (by simp), if_neg hs0, htl] at hcontra
    dsimp only at hcontra
    rw [if_neg hcond] at hcontra
    obtain ⟨k1, rest2, hsigs⟩ := hhead (by omega)
    rw [hsigs] at hcontra
    obtain ⟨mL, hmL⟩ : ∃ mL, d.Min + (step (seedInit (SymVal.sig initiator dependency))
        (d.Max - d.Min + 1)).1 = mL + 1 :=
      ⟨d.Min + (step (seedInit (SymVal.sig initiator dependency))
        (d.Max - d.Min + 1)).1 - 1, by omega⟩
    rw [hmL] at hcontra
    simp only [checkTour] at hcontra
    have hneq : SymVal.blake (SymVal.cat (SymVal.blake (SymVal.cat
          (SymVal.sig initiator dependency) msg2)) (SymVal.cat dependency msg2))
        ≠ SymVal.blake (SymVal.cat (SymVal.blake (SymVal.cat
          (SymVal.sig initiator dependency) message)) (SymVal.cat dependency message)) := by
      simp [hmsg]
    rw [recover_sig_ne k1 _ _ hneq] at hcontra
    dsimp only at hcontra
    have hpos2 : 0 < (createServices step seedInit (privs.map SymVal.pub)
        (SymVal.sig initiator dependency)).length := Nat.pos_of_ne_zero hs0
    have hidx2 : hashToIndex (SymVal.blake (SymVal.cat (SymVal.sig initiator dependency)
        msg2)) (createServices step seedInit (privs.map SymVal.pub)
        (SymVal.sig initiator dependency)).length
        < (createServices step seedInit (privs.map SymVal.pub)
            (SymVal.sig initiator dependency)).length := by
      unfold hashToIndex
      rw [if_neg hs0]
      exact Nat.mod_lt _ hpos2
    obtain ⟨k2, hk2⟩ := hserv _ (getD_mem_of_lt _ _ hZero hidx2)
    rw [hk2, if_pos (by simp)] at hcontra
    exact Except.noConfusion hcontra
  · -- any replaced tour signature is rejected
    intro i v hi hv hcontra
    simp only [CheckPoI] at hcontra
    rw [recover_eq_pub] at hcontra
    dsimp only at hcontra
    rw [if_neg (by simp), if_neg hs0, htl] at hcontra
    dsimp only at hcontra
    rw [if_neg (hcondset i v)] at hcontra
    exact htam i v hi hv hcontra
  · -- a replaced initial signature is rejected
    intro v hv hcontra
    simp only [CheckPoI] at hcontra
    cases hr : recover v dependency with
    | none => simp [hr] at hcontra
    | some pk =>
      have hne2 : pk ≠ SymVal.pub initiator := recover_tamper v dependency initiator hv pk hr
      rw [hr] at hcontra
      dsimp only at hcontra
      rw [if_pos hne2] at hcontra
      exact Except.noConfusion hcontra

/-- Counterexample to C1 as stated: with a non-empty node list of one
node, `GeneratePoI` fails (the service subset of size `|N|/2 = 0` is
empty) instead of succeeding. -/
theorem GeneratePoI_singleton_counterexample :
    ([SymVal.pub 1] : List SymVal) ≠ []
      ∧ GeneratePoI (fun (s : ℕ) (n : ℕ) => (s % n, s + 1)) (fun _ => 0) 0
          (SymVal.raw 1) (SymVal.raw 2) ⟨[SymVal.pub 1], ⟨1, 1⟩⟩ honestProvider
        = Except.error "node list cannot be empty" := by
  exact ⟨by simp, by decide⟩

/-- Witness for C1 with two nodes and difficulty (1, 1). -/
theorem GeneratePoI_CheckPoI_roundtrip_witness :
    (2 ≤ ([0, 1] : List ℕ).length
        ∧ ((⟨1, 1⟩ : Difficulty).Min ≠ 0 ∧ (⟨1, 1⟩ : Difficulty).Max ≠ 0
            ∧ (⟨1, 1⟩ : Difficulty).Min ≤ (⟨1, 1⟩ : Difficulty).Max))
      ∧ ∃ poi,
          GeneratePoI (fun (s : ℕ) (n : ℕ) => (s % n, s + 1)) (fun _ => 0) 5
              (SymVal.raw 1) (SymVal.raw 2) ⟨[0, 1].map SymVal.pub, ⟨1, 1⟩⟩ honestProvider
            = Except.ok poi
          ∧ CheckPoI (fun (s : ℕ) (n : ℕ) => (s % n, s + 1)) (fun _ => 0) poi
              (SymVal.pub 5) (SymVal.raw 1) (SymVal.raw 2) ⟨[0, 1].map SymVal.pub, ⟨1, 1⟩⟩
            = Except.ok () :=
  ⟨⟨by decide, by decide⟩, by
    obtain ⟨poi, h1, h2, _⟩ := GeneratePoI_CheckPoI_roundtrip
      (fun (s : ℕ) (n : ℕ) => (s % n, s + 1)) (fun _ => 0) 5 [0, 1]
      (SymVal.raw 1) (SymVal.raw 2) ⟨1, 1⟩ (by decide) (by decide)
    exact ⟨poi, h1, h2⟩⟩

/-- `Header` from block.go: `Timestamp` is a signed 64-bit nanosecond
count, kept as an integer. -/
structure Header where
  Version : ℕ
  DataHash : SymVal
  PrevBlockHash : SymVal
  Height : ℕ
  Timestamp : ℤ
  Difficulty : Difficulty
deriving DecidableEq, Repr

/-- Injective encoding of a signed integer into the naturals, used to
place the timestamp inside the symbolic header bytes. -/
def intEnc (t : ℤ) : ℕ := if t < 0 then 2 * t.natAbs + 1 else 2 * t.natAbs

/-- `Header.Bytes` from block.go: the deterministic structured (gob)
serialization of the header, one component per field. -/
def Header.Bytes (h : Header) : SymVal :=
  SymVal.cat (SymVal.raw h.Version) (SymVal.cat h.DataHash (SymVal.cat h.PrevBlockHash
    (SymVal.cat (SymVal.raw h.Height) (SymVal.cat (SymVal.raw (intEnc h.Timestamp))
      (SymVal.cat (SymVal.raw h.Difficulty.Min) (SymVal.raw h.Difficulty.Max))))))

/-- `BlockHasher.Hash` from core/hasher.go: BLAKE2b-256 of the encoded
header. -/
def BlockHasherHash (h : Header) : SymVal := SymVal.blake h.Bytes

/-- `Block` from block.go: a header, transactions, and either a legacy
signature or a PoI proof, plus the private header-hash cache. -/
structure Block where
  header : Header
  Transactions : List Transaction
  Signature : Option SymVal
  Proof : Option ProofOfInteraction
  headerHash : SymVal
deriving DecidableEq, Repr

/-- `Block.HeaderHash` from block.go: the cached hash, or the hash of
the current header when the cache holds the zero sentinel. -/
def Block.HeaderHash (b : Block) : SymVal :=
  if b.headerHash = hZero then BlockHasherHash b.header else b.headerHash

/-- Modelled from the spec: `Transaction::signer()` of the
recovery-capable transaction version called by `Block.VerifyData` (the
file defining it is not in the tree): recover the public key from the
signature over the canonical (cached) transaction hash; a missing
signature or failed recovery is an error. -/
def Transaction.Signer (tx : Transaction) : Except String SymVal :=
  match tx.Signature with
  | none => Except.error "The verified transaction has no signature."
  | some sg =>
    match recover sg (Transaction.Hash tx).1 with
    | none => Except.error "transaction signature public key recovery failed"
    | some pk => Except.ok pk

/-- Encoding of an optional byte string inside a gob stream (a presence
marker followed by the value). -/
def optEnc : Option SymVal → SymVal
  | none => SymVal.raw 0
  | some v => SymVal.cat (SymVal.raw 1) v

/-- Gob encoding of one transaction's exported fields, as written into
the `ComputeDataHash` buffer. -/
def txGobEnc (tx : Transaction) : SymVal :=
  SymVal.cat tx.Data (SymVal.cat tx.To (SymVal.cat (SymVal.raw tx.Value)
    (SymVal.cat (optEnc tx.From) (SymVal.cat (optEnc tx.Signature) (SymVal.raw tx.Nonce)))))

/-- Concatenation of a list of encoded values into one byte string. -/
def bytesOfList : List SymVal → SymVal
  | [] => SymVal.raw 0
  | v :: rest => SymVal.cat v (bytesOfList rest)

/-- `ComputeDataHash` from block.go: BLAKE2b-256 over the concatenated
gob encodings of all transactions. -/
def ComputeDataHash (txx : List Transaction) : SymVal :=
  SymVal.blake (bytesOfList (txx.map txGobEnc))

/-- The transaction-signer loop of `Block.VerifyData`: recover the
signer of every included transaction, failing on the first malformed
signature. -/
def signersOk : List Transaction → Except String Unit
  | [] => Except.ok ()
  | tx :: rest =>
    match tx.Signer with
    | Except.error e => Except.error e
    | Except.ok _ => signersOk rest

/-- `Block.VerifyData` from block.go: require a signature or a proof,
recover every transaction signer, and compare the recomputed data hash
with the header's. -/
def Block.VerifyData (b : Block) : Except String Unit :=
  if b.Signature = none ∧ b.Proof = none then
    Except.error "the verified block has no signature"
  else
    match signersOk b.Transactions with
    | Except.error e => Except.error e
    | Except.ok () =>
      if ComputeDataHash b.Transactions = b.header.DataHash then Except.ok ()
      else Except.error "block data hash verification failed"

/-- `Block.Initiator` from block.go: recover the initiator from the
proof's initial signature over the previous block hash. -/
def Block.Initiator (b : Block) : Except String SymVal :=
  match b.Proof with
  | none => Except.error "the verified block has no PoI proof"
  | some proof =>
    match recover proof.InitialSig b.header.PrevBlockHash with
    | none => Except.error "failed to recover initiator public key"
    | some pk => Except.ok pk

/-- `Block.VerifyProof` from block.go: check the PoI proof for the
block's dependency (previous hash), message (data hash) and declared
difficulty. -/
def Block.VerifyProof {σ : Type} (step : σ → ℕ → ℕ × σ) (seedInit : SymVal → σ)
    (b : Block) (ctx : PoIContext) : Except String Unit :=
  match b.Proof with
  | none => Except.error "the verified block has no PoI proof"
  | some proof =>
    match Block.Initiator b with
    | Except.error e => Except.error e
    | Except.ok initiator =>
      CheckPoI step seedInit proof initiator b.header.PrevBlockHash b.header.DataHash
        ⟨ctx.Nodes, b.header.Difficulty⟩

/-- `Blockchain` from blockchain.go: hash index, height index, longest
chain, genesis, current height, node set, difficulty, ledger and the
optional equivocation tracker. -/
structure Blockchain where
  blocks : List (SymVal × Block)
  blocksByHeight : List (ℕ × List Block)
  longestChain : List Block
  genesisBlock : Block
  currentHeight : ℕ
  nodes : List SymVal
  difficulty : Difficulty
  ledger : List (ℕ × ℕ)
  messageTracker : Option PoIMessageTracker.Tracker
deriving DecidableEq, Repr

/-- `Blockchain.ValidateBlock` from blockchain.go: reject a block whose
header hash is already indexed, then verify the block data, then verify
the PoI proof when one is present (with the chain's node set and the
block's declared difficulty). -/
def Blockchain.ValidateBlock {σ : Type} (step : σ → ℕ → ℕ × σ) (seedInit : SymVal → σ)
    (bc : Blockchain) (b : Block) : Except String Unit :=
  if (lookupKV bc.blocks b.HeaderHash).isSome then
    Except.error "block already exists in chain"
  else
    match b.VerifyData with
    | Except.error e => Except.error e
    | Except.ok () =>
      match b.Proof with
      | some _ =>
        match Block.VerifyProof step seedInit b ⟨bc.nodes, b.header.Difficulty⟩ with
        | Except.error e => Except.error e
        | Except.ok () => Except.ok ()
      | none => Except.ok ()

/-- The height-index insertion of `AddBlock`: create the bucket when
absent, then append. -/
def updateByHeight (m : List (ℕ × List Block)) (h : ℕ) (b : Block) :
    List (ℕ × List Block) :=
  match lookupKV m h with
  | none => (h, [b]) :: m
  | some l => updateKV m h (l ++ [b])

/-- A zero value for `Block`, standing in for Go's out-of-range slice
access in `adjustDifficulty` (which never happens on the heights at
which the method is called). -/
def defaultBlock : Block := ⟨⟨0, hZero, hZero, 0, 0, ⟨0, 0⟩⟩, [], none, none, hZero⟩

/-- `Blockchain.adjustDifficulty` from blockchain.go: average the block
times over the last 2016-block interval of the longest chain and adjust
the difficulty toward the 10-second target. -/
def Blockchain.adjustDifficulty (bc : Blockchain) : Blockchain :=
  if bc.currentHeight < 2016 then bc
  else
    let startBlock := bc.longestChain.getD (bc.currentHeight - 2016) defaultBlock
    let endBlock := bc.longestChain.getD bc.currentHeight defaultBlock
    let timeDiff : ℚ :=
      ((endBlock.header.Timestamp - startBlock.header.Timestamp : ℤ) : ℚ) / 1000000000
    let actualBlockTime := timeDiff / 2016
    { bc with difficulty := AdjustDifficulty bc.difficulty 10 actualBlockTime }

/-- `Blockchain.AddBlock` from blockchain.go: validate first and return
any error to the caller untouched; on success insert into the hash and
height indices, and when the block extends the longest chain also
append it, bump the height, adjust difficulty every 2016 blocks and
clear the tracker entries for the consumed dependency. -/
def Blockchain.AddBlock {σ : Type} (step : σ → ℕ → ℕ × σ) (seedInit : SymVal → σ)
    (bc : Blockchain) (b : Block) : Except String Unit × Blockchain :=
  match Blockchain.ValidateBlock step seedInit bc b with
  | Except.error e => (Except.error e, bc)
  | Except.ok () =>
    let blocks2 := (b.HeaderHash, b) :: bc.blocks
    let byHeight2 := updateByHeight bc.blocksByHeight b.header.Height b
    if b.header.Height > bc.currentHeight then
      let bc1 := { bc with
        blocks := blocks2
        blocksByHeight := byHeight2
        longestChain := bc.longestChain ++ [b]
        currentHeight := b.header.Height }
      let bc2 := if b.header.Height % 2016 = 0 ∧ b.header.Height > 0 then
          bc1.adjustDifficulty else bc1
      let bc3 := match bc2.messageTracker with
        | some t =>
          if b.header.Height > 0 then
            { bc2 with
              messageTracker := some (PoIMessageTracker.Clear t b.header.PrevBlockHash) }
          else bc2
        | none => bc2
      (Except.ok (), bc3)
    else
      (Except.ok (), { bc with blocks := blocks2, blocksByHeight := byHeight2 })

/-- C8.  When validation fails — in particular whenever the block's
header hash is already present in the index — `AddBlock` returns the
validation error and the chain state (block map, height index, longest
chain, height, difficulty, all of it) is exactly the state before the
call. -/
theorem AddBlock_error_unchanged {σ : Type} (step : σ → ℕ → ℕ × σ)
    (seedInit : SymVal → σ) (bc : Blockchain) (b : Block) (e : String)
    (hfail : Blockchain.ValidateBlock step seedInit bc b = Except.error e) :
    Blockchain.AddBlock step seedInit bc b = (Except.error e, bc)
      ∧ ∀ b2 : Block, (lookupKV bc.blocks b2.HeaderHash).isSome →
          ∃ e2, Blockchain.ValidateBlock step seedInit bc b2 = Except.error e2 := by
  constructor
  · unfold Blockchain.AddBlock
    rw [hfail]
  · intro b2 hdup
    unfold Blockchain.ValidateBlock
    rw [if_pos hdup]
    exact ⟨_, rfl⟩

/-- Witness for C8: adding a block whose header hash is already indexed
fails and leaves the chain untouched. -/
theorem AddBlock_error_unchanged_witness :
    (Blockchain.ValidateBlock (fun (s : ℕ) (n : ℕ) => (s % n, s + 1)) (fun _ => 0)
        ⟨[(SymVal.raw 9, ⟨⟨2, SymVal.raw 3, SymVal.raw 4, 1, 0, ⟨1, 1⟩⟩, [], some (SymVal.raw 5),
            none, SymVal.raw 9⟩)], [], [], defaultBlock, 0, [], ⟨1, 1⟩, [], none⟩
        ⟨⟨2, SymVal.raw 3, SymVal.raw 4, 1, 0, ⟨1, 1⟩⟩, [], some (SymVal.raw 5), none,
          SymVal.raw 9⟩
      = Except.error "block already exists in chain")
      ∧ Blockchain.AddBlock (fun (s : ℕ) (n : ℕ) => (s % n, s + 1)) (fun _ => 0)
          ⟨[(SymVal.raw 9, ⟨⟨2, SymVal.raw 3, SymVal.raw 4, 1, 0, ⟨1, 1⟩⟩, [], some (SymVal.raw 5),
              none, SymVal.raw 9⟩)], [], [], defaultBlock, 0, [], ⟨1, 1⟩, [], none⟩
          ⟨⟨2, SymVal.raw 3, SymVal.raw 4, 1, 0, ⟨1, 1⟩⟩, [], some (SymVal.raw 5), none,
            SymVal.raw 9⟩
        = (Except.error "block already exists in chain",
            ⟨[(SymVal.raw 9, ⟨⟨2, SymVal.raw 3, SymVal.raw 4, 1, 0, ⟨1, 1⟩⟩, [], some (SymVal.raw 5),
                none, SymVal.raw 9⟩)], [], [], defaultBlock, 0, [], ⟨1, 1⟩, [], none⟩) :=
  ⟨by decide,
    (AddBlock_error_unchanged (fun (s : ℕ) (n : ℕ) => (s % n, s + 1)) (fun _ => 0)
      ⟨[(SymVal.raw 9, ⟨⟨2, SymVal.raw 3, SymVal.raw 4, 1, 0, ⟨1, 1⟩⟩, [], some (SymVal.raw 5),
          none, SymVal.raw 9⟩)], [], [], defaultBlock, 0, [], ⟨1, 1⟩, [], none⟩
      ⟨⟨2, SymVal.raw 3, SymVal.raw 4, 1, 0, ⟨1, 1⟩⟩, [], some (SymVal.raw 5), none,
        SymVal.raw 9⟩
      "block already exists in chain" (by decide)).1⟩

end Ambula
